import Mathlib

/-!
Verification of `binance_ohlcv_exporter.py` (OHLCV exporter).

Shallow embedding conventions:
* Machine integers (epoch milliseconds, counters) are `Int`/`Nat`.
* The source carries prices and volumes as Python `float`; the embedding uses
  `ℚ` for the arithmetic the claims are about.  The "not-a-number" sentinel
  `float("nan")` is modelled as `none : Option ℚ`, a computed value as `some`.
* `requests.get`/`raise_for_status` are abstracted as a transport oracle
  mapping the attempt number to an outcome; exceptions become an `Except`.
* `fetch_klines`'s `while True` loop is embedded with explicit fuel and an
  `Option` result (`none` = fuel exhausted); a separate theorem shows enough
  fuel always exists under the upstream API contract.
-/

namespace OhlcvExporter

/-- One candle record; mirrors the `Kline` dataclass of the source
(`open`, `high`, `low`, `close`, `volume`, `quote_volume`,
`taker_buy_base_volume`, `taker_buy_quote_volume` are `float` in the source,
embedded as `ℚ`). -/
structure Kline where
  open_time_ms : Int
  «open» : ℚ
  high : ℚ
  low : ℚ
  close : ℚ
  volume : ℚ
  close_time_ms : Int
  quote_volume : ℚ
  trades : Int
  taker_buy_base_volume : ℚ
  taker_buy_quote_volume : ℚ
deriving DecidableEq, Inhabited, Repr

/-! ## HTTP fetch with retry (`_request_with_retry`) -/

/-- The outcome of one `requests.get(...)` + `raise_for_status()` attempt:
either a parsed JSON body (a page of klines), a `requests.ConnectionError`,
a `requests.Timeout`, or a `requests.HTTPError` carrying the HTTP status. -/
inductive Attempt where
  | ok (rows : List Kline)
  | connErr
  | timeoutErr
  | httpErr (status : Nat)
deriving DecidableEq, Repr

/-- The exception that `_request_with_retry` re-raises. -/
inductive NetErr where
  | conn
  | timeout
  | http (status : Nat)
deriving DecidableEq, Repr

instance {ε α : Type} [DecidableEq ε] [DecidableEq α] :
    DecidableEq (Except ε α) := fun x y =>
  match x, y with
  | .ok a, .ok b =>
      if h : a = b then .isTrue (by rw [h]) else .isFalse (by simp [h])
  | .error e, .error f =>
      if h : e = f then .isTrue (by rw [h]) else .isFalse (by simp [h])
  | .ok _, .error _ => .isFalse (by simp)
  | .error _, .ok _ => .isFalse (by simp)

/-- Observable behaviour of one `_request_with_retry` call: the returned
value or raised exception, the number of `requests.get` attempts made, and
the sequence of `time.sleep` waits (in seconds). -/
structure RunResult where
  result : Except NetErr (List Kline)
  calls : Nat
  sleeps : List Nat
deriving DecidableEq, Repr

/-- The body of `for attempt in range(1, retries + 1)`.  `attempts` is the
list of remaining attempt indices, `transport a` the outcome of the HTTP GET
made on attempt `a`.  On a connection error or timeout the source re-raises
when `attempt == retries` and otherwise sleeps `2 ** attempt` and continues;
on an `HTTPError` with status 429 it sleeps and continues unconditionally;
any other `HTTPError` is re-raised at once.  Falling off the loop reaches the
source's `return []` line. -/
def retryGo (transport : Nat → Attempt) (retries : Int) :
    List Nat → Nat → List Nat → RunResult
  | [], calls, sleeps => ⟨.ok [], calls, sleeps⟩
  | a :: rest, calls, sleeps =>
    match transport a with
    | .ok rows => ⟨.ok rows, calls + 1, sleeps⟩
    | .connErr =>
        if (a : Int) = retries then ⟨.error .conn, calls + 1, sleeps⟩
        else retryGo transport retries rest (calls + 1) (sleeps ++ [2 ^ a])
    | .timeoutErr =>
        if (a : Int) = retries then ⟨.error .timeout, calls + 1, sleeps⟩
        else retryGo transport retries rest (calls + 1) (sleeps ++ [2 ^ a])
    | .httpErr status =>
        if status = 429 then
          retryGo transport retries rest (calls + 1) (sleeps ++ [2 ^ a])
        else ⟨.error (.http status), calls + 1, sleeps⟩

/-- Function `_request_with_retry(url, params, timeout, retries)`: iterate the loop
body over the attempt indices `1, 2, ..., retries` (`range(1, retries + 1)`,
empty when `retries < 1`). -/
def request_with_retry (transport : Nat → Attempt) (retries : Int := 3) :
    RunResult :=
  retryGo transport retries (List.range' 1 retries.toNat) 0 []

/-! ## Kline pagination engine (`fetch_klines`)

The HTTP layer is abstracted as `transport : Int → List Kline`, mapping the
only per-page varying request parameter (`startTime`, the pagination cursor
`next_start`) to the parsed page `_request_with_retry` returns.  The
`while True` loop gets explicit fuel; `none` means the fuel ran out. -/

/-- The source's `last_open = int(data[-1][0])`: open-time of the final row of a page
(0 as a don't-care value on the empty page, on which the source never
evaluates it). -/
def lastOpen (data : List Kline) : Int :=
  match data.getLast? with
  | some k => k.open_time_ms
  | none => 0

/-- The pagination loop of `fetch_klines`, accumulating raw rows: stop on an
empty page; stop keeping the page when `last_open >= end_ms or
len(data) < limit` (with `limit = 1000`); otherwise continue from
`next_start = last_open + 1`. -/
def fetchGo (transport : Int → List Kline) (end_ms : Int) :
    Nat → Int → Option (List Kline)
  | 0, _ => none
  | fuel + 1, cursor =>
    let data := transport cursor
    if data = [] then some []
    else if end_ms ≤ lastOpen data ∨ data.length < 1000 then some data
    else (fetchGo transport end_ms fuel (lastOpen data + 1)).map
      (fun rest => data ++ rest)

/-- Number of pages the loop requests (same control flow as `fetchGo`). -/
def fetchCount (transport : Int → List Kline) (end_ms : Int) :
    Nat → Int → Nat
  | 0, _ => 0
  | fuel + 1, cursor =>
    let data := transport cursor
    if data = [] then 1
    else if end_ms ≤ lastOpen data ∨ data.length < 1000 then 1
    else 1 + fetchCount transport end_ms fuel (lastOpen data + 1)

/-- One `dedup[k.open_time_ms] = k` dict update: replace in place if the key
is present, append otherwise (Python dict insertion-order semantics). -/
def insertReplace : List (Int × Kline) → Int → Kline → List (Int × Kline)
  | [], t, k => [(t, k)]
  | (t', k') :: rest, t, k =>
    if t' = t then (t, k) :: rest else (t', k') :: insertReplace rest t k

/-- The `dedup: dict[int, Kline]` built by `for k in out: dedup[k.open_time_ms] = k`. -/
def dedupFold (out : List Kline) : List (Int × Kline) :=
  out.foldl (fun m k => insertReplace m k.open_time_ms k) []

/-- Ordering of dict entries by key, used to model
`[dedup[t] for t in sorted(dedup.keys())]` (the keys are unique, so sorting
the entries by key is the same as sorting the keys and looking each up). -/
def keyLE (a b : Int × Kline) : Prop := a.1 ≤ b.1

instance : DecidableRel keyLE := fun a b =>
  inferInstanceAs (Decidable (a.1 ≤ b.1))

instance : IsTotal (Int × Kline) keyLE := ⟨fun a b => le_total a.1 b.1⟩

instance : IsTrans (Int × Kline) keyLE := ⟨fun _ _ _ h1 h2 => le_trans h1 h2⟩

/-- Post-processing of the accumulated rows: deduplicate by open-time
(last wins), sort ascending by open-time, then drop rows past `end_ms`
(`[k for k in out_sorted if k.open_time_ms <= end_ms]`). -/
def postProcess (out : List Kline) (end_ms : Int) : List Kline :=
  ((List.insertionSort keyLE (dedupFold out)).map Prod.snd).filter
    (fun k => decide (k.open_time_ms ≤ end_ms))

/-- Function `fetch_klines(symbol, interval, start_ms, end_ms, timeout)`: run the
pagination loop from `next_start = start_ms`, then post-process. -/
def fetch_klines (transport : Int → List Kline) (start_ms end_ms : Int)
    (fuel : Nat) : Option (List Kline) :=
  (fetchGo transport end_ms fuel start_ms).map
    (fun out => postProcess out end_ms)

/-- A candle with the given open-time and zero in every other field; used
to build concrete mocked pages. -/
def mkTimeKline (t : Int) : Kline :=
  { open_time_ms := t, «open» := 0, high := 0, low := 0, close := 0,
    volume := 0, close_time_ms := 0, quote_volume := 0, trades := 0,
    taker_buy_base_volume := 0, taker_buy_quote_volume := 0 }

/-- A full page (exactly 1000 rows) with open-times `0, 1, ..., 999`; used
as a concrete mocked page. -/
def fullPage : List Kline :=
  (List.range 1000).map fun i => mkTimeKline (Int.ofNat i)

/-- A concrete two-page transport respecting the upstream contract that
every returned row's open-time is at least the requested `startTime`. -/
def twoPageTransport : Int → List Kline := fun c =>
  if c ≤ 0 then fullPage
  else if c ≤ 1000 then [mkTimeKline 1000]
  else []

/-! ## Metrics calculator (`calc_metrics`) -/

/-- UTC calendar-day key of an epoch-millisecond timestamp.  The source
computes `ms_to_utc_iso(k.open_time_ms)[:10]`, the `YYYY-MM-DD` UTC date of
the timestamp; since Unix time has no leap seconds, two timestamps render
to the same date exactly when they lie in the same 86,400,000 ms block from
the epoch, so the day key is embedded as the floor division by
86,400,000. -/
def dayKey (ms : Int) : Int := ms.fdiv 86400000

/-- One `day[d] = day.get(d, 0.0) + v` dict update (add to the entry in
place if the key is present, append a fresh entry otherwise). -/
def updateAdd : List (Int × ℚ) → Int → ℚ → List (Int × ℚ)
  | [], d, v => [(d, v)]
  | (d', v') :: rest, d, v =>
    if d' = d then (d', v' + v) :: rest else (d', v') :: updateAdd rest d v

/-- The per-day accumulation loop
`for k in klines_1h: day[dayKey] = day.get(dayKey, 0.0) + f(k)`,
with `f` the volume field being summed. -/
def dayFold (f : Kline → ℚ) (klines : List Kline) : List (Int × ℚ) :=
  klines.foldl (fun m k => updateAdd m (dayKey k.open_time_ms) (f k)) []

/-- The `day_b` dict of `calc_metrics`: per-UTC-day sums of base volume. -/
def day_b (klines : List Kline) : List (Int × ℚ) :=
  dayFold (fun k => k.volume) klines

/-- The `day_q` dict of `calc_metrics`: per-UTC-day sums of quote volume. -/
def day_q (klines : List Kline) : List (Int × ℚ) :=
  dayFold (fun k => k.quote_volume) klines

/-- Helper `close_at_or_after(target_ms)`: the close of the first record with
`open_time_ms >= target_ms`, else the last record's close (the source only
calls this on a non-empty series, so 0 is a don't-care fallback). -/
def close_at_or_after (klines : List Kline) (target_ms : Int) : ℚ :=
  match klines.find? (fun k => decide (target_ms ≤ k.open_time_ms)) with
  | some k => k.close
  | none =>
    match klines.getLast? with
    | some k => k.close
    | none => 0

/-- Function `calc_metrics(symbol, klines_1h)`, returning
`(ch90, ch180, avg_b, avg_q)`; `float("nan")` is embedded as `none`.
A Python `float` is falsy exactly when it is zero, so
`... if c_90 else float("nan")` becomes a test against 0, and
`... if day_b else float("nan")` a test for the empty dict. -/
def calc_metrics (klines_1h : List Kline) :
    Option ℚ × Option ℚ × Option ℚ × Option ℚ :=
  if klines_1h.isEmpty then (none, none, none, none)
  else
    let lastK := klines_1h.getLast?.getD default
    let end_ms := lastK.open_time_ms
    let c_end := lastK.close
    let ms_90 := end_ms - 90 * 24 * 3600 * 1000
    let ms_180 := end_ms - 180 * 24 * 3600 * 1000
    let c_90 := close_at_or_after klines_1h ms_90
    let c_180 := close_at_or_after klines_1h ms_180
    let ch90 := if c_90 = 0 then none else some ((c_end / c_90 - 1) * 100)
    let ch180 :=
      if c_180 = 0 then none else some ((c_end / c_180 - 1) * 100)
    let db := day_b klines_1h
    let dq := day_q klines_1h
    let avg_b :=
      if db.isEmpty then none
      else some ((db.map Prod.snd).sum / (db.length : ℚ))
    let avg_q :=
      if dq.isEmpty then none
      else some ((dq.map Prod.snd).sum / (dq.length : ℚ))
    (ch90, ch180, avg_b, avg_q)

/-- The reference close stated in the spec's words, for comparison with the
code: "the close of the first record whose open-time is ≥ target time; if
no such record exists, fall back to the last record's close". -/
def refCloseSpec (klines : List Kline) (target_ms : Int) : ℚ :=
  match (klines.filter (fun k => decide (target_ms ≤ k.open_time_ms))).head? with
  | some k => k.close
  | none =>
    match klines.getLast? with
    | some k => k.close
    | none => 0

/-- The UTC calendar days present in a series, as a finite set of day
keys (the spec's "days present"). -/
def daysPresent (klines : List Kline) : Finset Int :=
  (klines.map (fun k => dayKey k.open_time_ms)).toFinset

/-- Per-day sum of a volume field, stated in the spec's words: the sum of
`f` over the records of the series whose UTC day is `d`. -/
def daySumF (f : Kline → ℚ) (klines : List Kline) (d : Int) : ℚ :=
  ((klines.filter (fun k => decide (dayKey k.open_time_ms = d))).map f).sum

/-- Per-day base-volume sum (spec wording). -/
def daySumBase (klines : List Kline) (d : Int) : ℚ :=
  daySumF (fun k => k.volume) klines d

/-- Per-day quote-volume sum (spec wording). -/
def daySumQuote (klines : List Kline) (d : Int) : ℚ :=
  daySumF (fun k => k.quote_volume) klines d

/-- Twenty-four hourly records at base volume 100 followed by 24 at 200 (quote
volume 5000 then 10000): the construction named in the claim (two whole UTC
days: day sums 2400 and 4800, mean 3600; quote 120000 and 240000, mean
180000). -/
def exampleTwoDays : List Kline :=
  (List.range 48).map fun h =>
    { open_time_ms := Int.ofNat h * 3600000, «open» := 0, high := 0,
      low := 0, close := 50,
      volume := if h < 24 then 100 else 200,
      close_time_ms := Int.ofNat (h + 1) * 3600000 - 1,
      quote_volume := if h < 24 then 5000 else 10000,
      trades := 0, taker_buy_base_volume := 0,
      taker_buy_quote_volume := 0 }

/-! ## Time-range resolver (`get_range`) -/

/-- Function `get_range(days, start, end)`.  `parse_dt_utc` yields a UTC datetime
(microsecond resolution, like `datetime.now`), so the embedding takes the
already-parsed optional bounds — and the current time used when `end` is
omitted — as epoch-microsecond integers.  `int(dt.timestamp() * 1000)`
truncates toward zero, embedded as `Int.tdiv` by 1000 (exact in real
arithmetic since a datetime's timestamp is a whole number of microseconds);
`end_dt - timedelta(days=days)` subtracts `days * 86_400_000_000`
microseconds. -/
def get_range (days : Int) (startUs? endUs? : Option Int) (nowUs : Int) :
    Int × Int :=
  let endUs := endUs?.getD nowUs
  let startUs := startUs?.getD (endUs - days * 86400000000)
  (startUs.tdiv 1000, endUs.tdiv 1000)

/-! ## Theorems -/

/-! ### Helper lemmas about the dedup dict and post-processing -/

theorem insertReplace_keys (m : List (Int × Kline)) (t : Int) (k : Kline) :
    (insertReplace m t k).map Prod.fst =
      if t ∈ m.map Prod.fst then m.map Prod.fst
      else m.map Prod.fst ++ [t] := by
  induction m with
  | nil => simp [insertReplace]
  | cons p rest ih =>
    obtain ⟨t', k'⟩ := p
    by_cases h : t' = t
    · subst h; simp [insertReplace]
    · by_cases ht : t ∈ rest.map Prod.fst
      · simp [insertReplace, h, ih, ht, Ne.symm h]
      · simp [insertReplace, h, ih, ht, Ne.symm h]

theorem insertReplace_keys_nodup (m : List (Int × Kline)) (t : Int)
    (k : Kline) (h : (m.map Prod.fst).Nodup) :
    ((insertReplace m t k).map Prod.fst).Nodup := by
  rw [insertReplace_keys]
  by_cases ht : t ∈ m.map Prod.fst
  · simpa [ht] using h
  · rw [if_neg ht]
    simp [List.nodup_append, h, ht]

theorem insertReplace_key_eq (m : List (Int × Kline)) (k : Kline)
    (h : ∀ p ∈ m, p.1 = p.2.open_time_ms) :
    ∀ p ∈ insertReplace m k.open_time_ms k, p.1 = p.2.open_time_ms := by
  induction m with
  | nil => simp [insertReplace]
  | cons q rest ih =>
    obtain ⟨t', k'⟩ := q
    intro p hp
    by_cases hq : t' = k.open_time_ms
    · subst hq
      simp [insertReplace] at hp
      rcases hp with hp | hp
      · subst hp; rfl
      · exact h p (by simp [hp])
    · simp [insertReplace, hq] at hp
      rcases hp with hp | hp
      · subst hp; exact h (t', k') (by simp)
      · exact ih (fun q hq' => h q (by simp [hq'])) p hp

theorem dedupFold_keys_nodup_aux (out : List Kline) :
    ∀ m : List (Int × Kline), (m.map Prod.fst).Nodup →
      (((out.foldl (fun m k => insertReplace m k.open_time_ms k) m)).map
        Prod.fst).Nodup := by
  induction out with
  | nil => intro m h; simpa using h
  | cons k out ih =>
    intro m h
    simp only [List.foldl_cons]
    exact ih _ (insertReplace_keys_nodup _ _ _ h)

theorem dedupFold_keys_nodup (out : List Kline) :
    ((dedupFold out).map Prod.fst).Nodup :=
  dedupFold_keys_nodup_aux out [] (by simp)

theorem dedupFold_key_eq_aux (out : List Kline) :
    ∀ m : List (Int × Kline), (∀ p ∈ m, p.1 = p.2.open_time_ms) →
      ∀ p ∈ out.foldl (fun m k => insertReplace m k.open_time_ms k) m,
        p.1 = p.2.open_time_ms := by
  induction out with
  | nil => intro m h; simpa using h
  | cons k out ih =>
    intro m h
    simp only [List.foldl_cons]
    exact ih _ (insertReplace_key_eq _ _ h)

theorem dedupFold_key_eq (out : List Kline) :
    ∀ p ∈ dedupFold out, p.1 = p.2.open_time_ms :=
  dedupFold_key_eq_aux out [] (by simp)

theorem postProcess_sorted_bounded (out : List Kline) (end_ms : Int) :
    (postProcess out end_ms).Pairwise
      (fun a b => a.open_time_ms < b.open_time_ms) ∧
    ∀ k ∈ postProcess out end_ms, k.open_time_ms ≤ end_ms := by
  constructor
  · apply List.Pairwise.filter
    rw [List.pairwise_map]
    have hsorted := List.sorted_insertionSort keyLE (dedupFold out)
    have hperm := List.perm_insertionSort keyLE (dedupFold out)
    have hnodup :
        ((List.insertionSort keyLE (dedupFold out)).map Prod.fst).Nodup :=
      ((hperm.map Prod.fst).nodup_iff).mpr (dedupFold_keys_nodup out)
    have hkey : ∀ p ∈ List.insertionSort keyLE (dedupFold out),
        p.1 = p.2.open_time_ms := fun p hp =>
      dedupFold_key_eq out p (hperm.mem_iff.mp hp)
    have hne : (List.insertionSort keyLE (dedupFold out)).Pairwise
        (fun a b => a.1 ≠ b.1) := List.pairwise_map.mp hnodup
    have hlt : (List.insertionSort keyLE (dedupFold out)).Pairwise
        (fun a b => a.1 < b.1) :=
      (hsorted.and hne).imp fun h => lt_of_le_of_ne h.1 h.2
    exact hlt.imp_of_mem fun ha hb h => by
      rw [← hkey _ ha, ← hkey _ hb]; exact h
  · intro k hk
    simpa using (List.mem_filter.mp hk).2

theorem lastOpen_mem (l : List Kline) (h : l ≠ []) :
    ∃ k ∈ l, lastOpen l = k.open_time_ms :=
  ⟨l.getLast h, List.getLast_mem h, by
    simp [lastOpen, List.getLast?_eq_getLast l h]⟩

/-! ### Claim theorems for the pagination engine -/

/-- C1 (amended): for every transport (sequence of mocked pages), every list
`fetch_klines` returns is strictly increasing in `open_time_ms` (hence has
no duplicate open-times) and every element satisfies
`open_time_ms ≤ end_ms`.  The original claim's additional lower bound
`start_ms ≤ open_time_ms` does not hold (see the counterexample): the code
only trims the tail `open_time_ms > end_ms`. -/
theorem fetch_klines_sorted_unique_bounded (transport : Int → List Kline)
    (start_ms end_ms : Int) (fuel : Nat) (res : List Kline)
    (h : fetch_klines transport start_ms end_ms fuel = some res) :
    res.Pairwise (fun a b => a.open_time_ms < b.open_time_ms) ∧
    ∀ k ∈ res, k.open_time_ms ≤ end_ms := by
  obtain ⟨out, -, rfl⟩ := Option.map_eq_some'.mp h
  exact postProcess_sorted_bounded out end_ms

/-- Witness for C1 (amended) on a concrete single-page transport. -/
theorem fetch_klines_sorted_unique_bounded_witness :
    ([mkTimeKline 0, mkTimeKline 3600000]).Pairwise
      (fun a b => a.open_time_ms < b.open_time_ms) ∧
    ∀ k ∈ [mkTimeKline 0, mkTimeKline 3600000],
      k.open_time_ms ≤ 7200000 :=
  fetch_klines_sorted_unique_bounded
    (fun _ => [mkTimeKline 0, mkTimeKline 3600000]) 0 7200000 1
    [mkTimeKline 0, mkTimeKline 3600000] (by decide)

/-- C1 counterexample: with `start_ms = 100`, `end_ms = 200` and a mocked
page containing one row with open-time 50, `fetch_klines` returns that row,
whose open-time violates the claimed lower bound `start_ms ≤ open_time_ms`. -/
theorem fetch_klines_lower_bound_counterexample :
    (fetch_klines (fun _ => [mkTimeKline 50]) 100 200 1).isSome ∧
    ∃ k ∈ (fetch_klines (fun _ => [mkTimeKline 50]) 100 200 1).getD [],
      k.open_time_ms < 100 := by
  decide

theorem fullPage_open_time_nonneg : ∀ k ∈ fullPage, 0 ≤ k.open_time_ms := by
  intro k hk
  simp only [fullPage, List.mem_map] at hk
  obtain ⟨i, -, rfl⟩ := hk
  simp [mkTimeKline]

theorem twoPageTransport_lower_bound :
    ∀ c, ∀ k ∈ twoPageTransport c, c ≤ k.open_time_ms := by
  intro c k hk
  unfold twoPageTransport at hk
  split_ifs at hk with h1 h2
  · exact le_trans h1 (fullPage_open_time_nonneg k hk)
  · simp only [List.mem_singleton] at hk
    subst hk
    simpa [mkTimeKline] using h2
  · simp at hk

/-- C2 (amended): on a non-empty page, pagination stops (requests no further
page) exactly when the page has fewer than 1000 rows or its last open-time
reaches `end_ms`; otherwise one further request is made from cursor
`last_open + 1`.  Provided every row a page returns has open-time at least
the requested cursor (the upstream `startTime` contract — the claim's
"pages of bounded open-times"), the new cursor is strictly greater than the
previous one, and the loop always terminates: fuel exceeding
`(end_ms + 1 - start).toNat` suffices.  Without that contract the cursor
need not increase (see the counterexample). -/
theorem fetch_pagination_stop_progress_terminates
    (transport : Int → List Kline) (end_ms : Int)
    (H : ∀ c, ∀ k ∈ transport c, c ≤ k.open_time_ms) :
    (∀ fuel cursor, transport cursor ≠ [] →
        (end_ms ≤ lastOpen (transport cursor) ∨
          (transport cursor).length < 1000) →
        fetchCount transport end_ms (fuel + 1) cursor = 1) ∧
    (∀ fuel cursor, transport cursor ≠ [] →
        ¬(end_ms ≤ lastOpen (transport cursor) ∨
          (transport cursor).length < 1000) →
        fetchCount transport end_ms (fuel + 1) cursor =
          1 + fetchCount transport end_ms fuel
            (lastOpen (transport cursor) + 1) ∧
        cursor < lastOpen (transport cursor) + 1) ∧
    (∀ cursor fuel, (end_ms + 1 - cursor).toNat < fuel →
        (fetchGo transport end_ms fuel cursor).isSome) := by
  refine ⟨?_, ?_, ?_⟩
  · intro fuel cursor hne hstop
    simp [fetchCount, hne, hstop]
  · intro fuel cursor hne hstop
    refine ⟨by simp [fetchCount, hne, hstop], ?_⟩
    obtain ⟨k, hk, hEq⟩ := lastOpen_mem _ hne
    have := H cursor k hk
    omega
  · intro cursor fuel
    induction fuel generalizing cursor with
    | zero => intro h; omega
    | succ f IH =>
      intro hb
      by_cases hd : transport cursor = []
      · simp [fetchGo, hd]
      · by_cases hstop : end_ms ≤ lastOpen (transport cursor) ∨
            (transport cursor).length < 1000
        · simp [fetchGo, hd, hstop]
        · have hlt : lastOpen (transport cursor) < end_ms := by
            push_neg at hstop; exact hstop.1
          obtain ⟨k, hk, hEq⟩ := lastOpen_mem _ hd
          have hcur := H cursor k hk
          have hrec : (fetchGo transport end_ms f
              (lastOpen (transport cursor) + 1)).isSome := by
            apply IH; omega
          simpa [fetchGo, hd, hstop] using hrec

set_option maxRecDepth 20000 in
/-- Witness for C2 (amended) on a concrete two-page transport: the full
first page triggers exactly one further request, and ample fuel makes the
loop reach a stopping condition. -/
theorem fetch_pagination_stop_progress_terminates_witness :
    fetchCount twoPageTransport 5000 2 0 = 2 ∧
    (fetchGo twoPageTransport 5000 5002 0).isSome := by
  obtain ⟨h1, h2, h3⟩ :=
    fetch_pagination_stop_progress_terminates twoPageTransport 5000
      twoPageTransport_lower_bound
  refine ⟨?_, h3 0 5002 (by decide)⟩
  have ha := h2 1 0 (by decide) (by decide)
  have hb := h1 0 1000 (by decide) (by decide)
  have hkey : lastOpen (twoPageTransport 0) + 1 = 1000 := by decide
  rw [ha.1, hkey, hb]

set_option maxRecDepth 20000 in
/-- C2 counterexample: a full page of 1000 rows with open-times `0..999`
continues pagination at cursor 2000 (its last open-time 999 is below
`end_ms = 1000000` and the page is not short), yet the new cursor
`last_open + 1 = 1000` is NOT strictly greater than the previous cursor —
the claimed unconditional forward progress fails for arbitrary mocked
pages. -/
theorem fetch_cursor_progress_counterexample :
    fullPage ≠ [] ∧
    ¬(1000000 ≤ lastOpen fullPage ∨ fullPage.length < 1000) ∧
    ¬(2000 < lastOpen fullPage + 1) := by
  decide

/-! ### Helper lemmas for the metrics calculator -/

theorem find_eq_head_filter (p : Kline → Bool) (l : List Kline) :
    l.find? p = (l.filter p).head? := by
  induction l with
  | nil => rfl
  | cons a l ih =>
    cases hpa : p a
    · rw [List.find?_cons_of_neg _ (by simp [hpa]),
        List.filter_cons_of_neg (by simp [hpa]), ih]
    · rw [List.find?_cons_of_pos _ hpa, List.filter_cons_of_pos hpa,
        List.head?_cons]

theorem close_at_or_after_eq_refCloseSpec (klines : List Kline) (t : Int) :
    close_at_or_after klines t = refCloseSpec klines t := by
  unfold close_at_or_after refCloseSpec
  rw [find_eq_head_filter]

theorem updateAdd_sum (m : List (Int × ℚ)) (d : Int) (v : ℚ) :
    ((updateAdd m d v).map Prod.snd).sum = (m.map Prod.snd).sum + v := by
  induction m with
  | nil => simp [updateAdd]
  | cons p rest ih =>
    obtain ⟨d', v'⟩ := p
    by_cases h : d' = d
    · subst h; simp [updateAdd]; ring
    · simp [updateAdd, h, ih]; ring

theorem updateAdd_keys (m : List (Int × ℚ)) (d : Int) (v : ℚ) :
    (updateAdd m d v).map Prod.fst =
      if d ∈ m.map Prod.fst then m.map Prod.fst
      else m.map Prod.fst ++ [d] := by
  induction m with
  | nil => simp [updateAdd]
  | cons p rest ih =>
    obtain ⟨d', v'⟩ := p
    by_cases h : d' = d
    · subst h; simp [updateAdd]
    · by_cases hd : d ∈ rest.map Prod.fst
      · simp [updateAdd, h, ih, hd, Ne.symm h]
      · simp [updateAdd, h, ih, hd, Ne.symm h]

theorem updateAdd_keys_mem (m : List (Int × ℚ)) (d : Int) (v : ℚ)
    (x : Int) :
    x ∈ (updateAdd m d v).map Prod.fst ↔ x ∈ m.map Prod.fst ∨ x = d := by
  rw [updateAdd_keys]
  by_cases h : d ∈ m.map Prod.fst
  · rw [if_pos h]
    constructor
    · exact fun hx => Or.inl hx
    · rintro (hx | rfl)
      · exact hx
      · exact h
  · rw [if_neg h]
    simp [List.mem_append]

theorem updateAdd_keys_nodup (m : List (Int × ℚ)) (d : Int) (v : ℚ)
    (h : (m.map Prod.fst).Nodup) :
    ((updateAdd m d v).map Prod.fst).Nodup := by
  rw [updateAdd_keys]
  by_cases hd : d ∈ m.map Prod.fst
  · simpa [hd] using h
  · rw [if_neg hd]
    simp [List.nodup_append, h, hd]

theorem dayFold_sum_aux (f : Kline → ℚ) (l : List Kline) :
    ∀ m : List (Int × ℚ),
      (((l.foldl (fun m k => updateAdd m (dayKey k.open_time_ms) (f k))
        m)).map Prod.snd).sum = (m.map Prod.snd).sum + (l.map f).sum := by
  induction l with
  | nil => intro m; simp
  | cons k l ih =>
    intro m
    simp only [List.foldl_cons, List.map_cons, List.sum_cons]
    rw [ih, updateAdd_sum]
    ring

theorem dayFold_sum (f : Kline → ℚ) (l : List Kline) :
    ((dayFold f l).map Prod.snd).sum = (l.map f).sum := by
  simpa [dayFold] using dayFold_sum_aux f l []

theorem dayFold_keys_mem_aux (f : Kline → ℚ) (l : List Kline) :
    ∀ (m : List (Int × ℚ)) (x : Int),
      (x ∈ ((l.foldl (fun m k => updateAdd m (dayKey k.open_time_ms) (f k))
        m)).map Prod.fst ↔
      x ∈ m.map Prod.fst ∨
        x ∈ l.map (fun k => dayKey k.open_time_ms)) := by
  induction l with
  | nil => intro m x; simp
  | cons k l ih =>
    intro m x
    simp only [List.foldl_cons, List.map_cons, List.mem_cons]
    rw [ih, updateAdd_keys_mem]
    tauto

theorem dayFold_keys_mem (f : Kline → ℚ) (l : List Kline) (x : Int) :
    x ∈ (dayFold f l).map Prod.fst ↔
      x ∈ l.map (fun k => dayKey k.open_time_ms) := by
  simpa [dayFold] using dayFold_keys_mem_aux f l [] x

theorem dayFold_keys_nodup_aux (f : Kline → ℚ) (l : List Kline) :
    ∀ m : List (Int × ℚ), (m.map Prod.fst).Nodup →
      (((l.foldl (fun m k => updateAdd m (dayKey k.open_time_ms) (f k))
        m)).map Prod.fst).Nodup := by
  induction l with
  | nil => intro m h; simpa using h
  | cons k l ih =>
    intro m h
    simp only [List.foldl_cons]
    exact ih _ (updateAdd_keys_nodup _ _ _ h)

theorem dayFold_keys_nodup (f : Kline → ℚ) (l : List Kline) :
    ((dayFold f l).map Prod.fst).Nodup :=
  dayFold_keys_nodup_aux f l [] (by simp)

theorem dayFold_length_eq_card (f : Kline → ℚ) (l : List Kline) :
    (dayFold f l).length = (daysPresent l).card := by
  have hset : ((dayFold f l).map Prod.fst).toFinset = daysPresent l := by
    ext x
    simp only [List.mem_toFinset, daysPresent]
    exact dayFold_keys_mem f l x
  calc (dayFold f l).length
      = ((dayFold f l).map Prod.fst).length := (List.length_map _ _).symm
    _ = ((dayFold f l).map Prod.fst).toFinset.card :=
        (List.toFinset_card_of_nodup (dayFold_keys_nodup f l)).symm
    _ = (daysPresent l).card := by rw [hset]

theorem dayFold_ne_nil (f : Kline → ℚ) (l : List Kline) (h : l ≠ []) :
    dayFold f l ≠ [] := by
  intro hnil
  cases l with
  | nil => exact h rfl
  | cons k l' =>
    have hmem : dayKey k.open_time_ms ∈
        (dayFold f (k :: l')).map Prod.fst :=
      (dayFold_keys_mem f (k :: l') _).mpr (by simp)
    rw [hnil] at hmem
    simp at hmem

theorem daySumF_cons (f : Kline → ℚ) (x : Kline) (l : List Kline)
    (d : Int) :
    daySumF f (x :: l) d =
      (if dayKey x.open_time_ms = d then f x else 0) + daySumF f l d := by
  unfold daySumF
  by_cases h : dayKey x.open_time_ms = d
  · simp [List.filter_cons, h]
  · simp [List.filter_cons, h]

theorem sum_daySumF (f : Kline → ℚ) (l : List Kline) (S : Finset Int)
    (hS : ∀ k ∈ l, dayKey k.open_time_ms ∈ S) :
    ∑ d ∈ S, daySumF f l d = (l.map f).sum := by
  induction l with
  | nil => simp [daySumF]
  | cons x l ih =>
    simp only [daySumF_cons]
    rw [Finset.sum_add_distrib,
      Finset.sum_ite_eq S (dayKey x.open_time_ms) (fun _ => f x),
      if_pos (hS x (by simp)), ih (fun k hk => hS k (by simp [hk]))]
    simp

/-! ### Claim theorems for the metrics calculator -/

/-- C6: for every non-empty series, each look-back window `D ∈ {90, 180}`
days of `calc_metrics` uses as reference close exactly the spec's one —
the close of the first record whose open-time is at least
`last open-time − D·24h`, else the last record's close — and returns
`(end_close / reference_close − 1) × 100`, with the not-a-number sentinel
(`none`) exactly when the reference close is zero. -/
theorem calc_metrics_lookback_refines_spec (klines : List Kline)
    (lastK : Kline) (h : klines.getLast? = some lastK) :
    (calc_metrics klines).1 =
      (if refCloseSpec klines (lastK.open_time_ms - 90 * 86400000) = 0
       then none
       else some ((lastK.close /
         refCloseSpec klines (lastK.open_time_ms - 90 * 86400000) - 1) *
           100)) ∧
    (calc_metrics klines).2.1 =
      (if refCloseSpec klines (lastK.open_time_ms - 180 * 86400000) = 0
       then none
       else some ((lastK.close /
         refCloseSpec klines (lastK.open_time_ms - 180 * 86400000) - 1) *
           100)) := by
  have hne : klines.isEmpty = false := by
    cases klines
    · simp at h
    · rfl
  constructor <;>
    simp [calc_metrics, hne, h, close_at_or_after_eq_refCloseSpec]

/-- Witness for C6 on the one-element series with close 0: the reference
close is 0, so both windows yield the not-a-number sentinel. -/
theorem calc_metrics_lookback_refines_spec_witness :
    (calc_metrics [mkTimeKline 0]).1 = none ∧
    (calc_metrics [mkTimeKline 0]).2.1 = none := by
  have h := calc_metrics_lookback_refines_spec [mkTimeKline 0]
    (mkTimeKline 0) rfl
  exact ⟨by rw [h.1]; decide, by rw [h.2]; decide⟩

set_option maxRecDepth 20000 in
/-- C7: for every non-empty series, the average daily volumes of
`calc_metrics` equal the arithmetic mean, over the UTC calendar days
present, of the per-day sums of the volume field (base and quote); in
particular, for 24 hourly records at base volume 100 followed by 24 at 200
(quote 5000 then 10000) the averages are 3600 and 180000. -/
theorem calc_metrics_avg_daily_volume :
    (∀ klines : List Kline, klines ≠ [] →
      (calc_metrics klines).2.2.1 =
        some ((∑ d ∈ daysPresent klines, daySumBase klines d) /
          ((daysPresent klines).card : ℚ)) ∧
      (calc_metrics klines).2.2.2 =
        some ((∑ d ∈ daysPresent klines, daySumQuote klines d) /
          ((daysPresent klines).card : ℚ))) ∧
    (calc_metrics exampleTwoDays).2.2.1 = some 3600 ∧
    (calc_metrics exampleTwoDays).2.2.2 = some 180000 := by
  refine ⟨?_,
    by norm_num [calc_metrics, exampleTwoDays, day_b, day_q, dayFold,
      updateAdd, dayKey, Int.fdiv, List.range_succ],
    by norm_num [calc_metrics, exampleTwoDays, day_b, day_q, dayFold,
      updateAdd, dayKey, Int.fdiv, List.range_succ]⟩
  intro klines hne
  have hie : klines.isEmpty = false := by
    cases klines
    · exact absurd rfl hne
    · rfl
  have hS : ∀ k ∈ klines, dayKey k.open_time_ms ∈ daysPresent klines := by
    intro k hk
    simp only [daysPresent, List.mem_toFinset]
    exact List.mem_map_of_mem _ hk
  have hb : (day_b klines).isEmpty = false := by
    have := dayFold_ne_nil (fun k => k.volume) klines hne
    simpa [day_b, List.isEmpty_iff] using this
  have hq : (day_q klines).isEmpty = false := by
    have := dayFold_ne_nil (fun k => k.quote_volume) klines hne
    simpa [day_q, List.isEmpty_iff] using this
  constructor
  · simp only [calc_metrics, hie, Bool.false_eq_true, if_false, hb]
    simp only [daySumBase, sum_daySumF _ _ _ hS, day_b,
      dayFold_sum, dayFold_length_eq_card]
  · simp only [calc_metrics, hie, Bool.false_eq_true, if_false, hq]
    simp only [daySumQuote, sum_daySumF _ _ _ hS, day_q,
      dayFold_sum, dayFold_length_eq_card]

set_option maxRecDepth 20000 in
/-- Witness for C7 at the concrete two-day construction. -/
theorem calc_metrics_avg_daily_volume_witness :
    (calc_metrics exampleTwoDays).2.2.1 =
      some ((∑ d ∈ daysPresent exampleTwoDays,
          daySumBase exampleTwoDays d) /
        ((daysPresent exampleTwoDays).card : ℚ)) :=
  (calc_metrics_avg_daily_volume.1 exampleTwoDays (by decide)).1

/-- C8: `calc_metrics` on the empty series returns the not-a-number
sentinel (`none` — never `some 0`, and no error is possible) in all four
output positions. -/
theorem calc_metrics_empty_all_nan :
    calc_metrics [] = (none, none, none, none) := rfl

/-! ### Claim theorems for the time-range resolver -/

/-- C9 (amended): when `start` is not explicitly given, the day-count is at
least 1, and the derived start does not fall before the epoch, the resolver
yields `start_ms < end_ms` and `end_ms - start_ms = days * 86400000`; when
both bounds come from the day-count alone, `endUs?` is `none` and this is
the claimed exact-difference property.  The original claim's unconditional
`start_ms < end_ms` for every valid input fails: the code never validates
an explicit start against the end (see the counterexample). -/
theorem get_range_derived_start (days : Int) (endUs? : Option Int)
    (nowUs : Int) (hdays : 1 ≤ days)
    (hstart : 0 ≤ endUs?.getD nowUs - days * 86400000000) :
    (get_range days none endUs? nowUs).1 <
      (get_range days none endUs? nowUs).2 ∧
    (get_range days none endUs? nowUs).2 -
      (get_range days none endUs? nowUs).1 = days * 86400000 := by
  simp only [get_range, Option.getD_none]
  have h1 : (endUs?.getD nowUs).tdiv 1000 = endUs?.getD nowUs / 1000 :=
    Int.tdiv_eq_ediv (by omega) (by omega)
  have h2 : (endUs?.getD nowUs - days * 86400000000).tdiv 1000 =
      (endUs?.getD nowUs - days * 86400000000) / 1000 :=
    Int.tdiv_eq_ediv hstart (by omega)
  have h3 : endUs?.getD nowUs =
      (endUs?.getD nowUs - days * 86400000000) + days * 86400000 * 1000 :=
    by ring
  have h4 : endUs?.getD nowUs / 1000 =
      (endUs?.getD nowUs - days * 86400000000) / 1000 + days * 86400000 := by
    conv_lhs => rw [h3]
    exact Int.add_mul_ediv_right _ _ (by norm_num)
  rw [h1, h2, h4]
  omega

/-- Witness for C9 (amended): both bounds derived from the day-count alone
at a concrete current time (2024-01-01 00:00:00 UTC in microseconds). -/
theorem get_range_derived_start_witness :
    (get_range 180 none none 1704067200000000).1 <
      (get_range 180 none none 1704067200000000).2 ∧
    (get_range 180 none none 1704067200000000).2 -
      (get_range 180 none none 1704067200000000).1 = 180 * 86400000 :=
  get_range_derived_start 180 none 1704067200000000 (by decide) (by decide)

/-- C9 counterexample: explicitly passing the same instant
(2024-01-01 00:00:00 UTC) for both `start` and `end` is a valid input the
resolver accepts, yet `start_ms < end_ms` fails (both bounds are equal). -/
theorem get_range_start_lt_end_counterexample :
    ¬ ((get_range 180 (some 1704067200000000) (some 1704067200000000)
        0).1 <
      (get_range 180 (some 1704067200000000) (some 1704067200000000)
        0).2) := by
  decide

/-- C3: the claim says that when every one of the `retries` attempts fails
with a retryable condition the call raises after exactly `retries` attempts
and never returns a value.  The code disagrees: when the retryable failures
are HTTP 429 responses, the 429 branch sleeps and continues even on the last
attempt, so the loop falls through to the `return []` line (commented
"unreachable" in the source) — with `retries = 3` and a transport answering
429 on every attempt the call makes 3 attempts, sleeps 2, 4 and 8 seconds,
and returns the empty list instead of raising. -/
theorem retry_429_exhaustion_returns_empty_list :
    request_with_retry (fun _ => .httpErr 429) 3 =
      ⟨.ok [], 3, [2, 4, 8]⟩ := by
  decide

/-- C4: a first attempt failing with a non-2xx HTTP status other than 429
(e.g. 404) is re-raised immediately: exactly one attempt, no sleep. -/
theorem retry_non429_http_error_immediate (transport : Nat → Attempt)
    (retries : Int) (st : Nat) (h1 : transport 1 = .httpErr st)
    (h2 : st ≠ 429) (h3 : 1 ≤ retries) :
    request_with_retry transport retries = ⟨.error (.http st), 1, []⟩ := by
  obtain ⟨m, hm⟩ : ∃ m, retries.toNat = m + 1 :=
    ⟨retries.toNat - 1, by omega⟩
  simp [request_with_retry, hm, List.range'_succ, retryGo, h1, h2]

/-- Witness for C4 at a concrete transport that answers 404. -/
theorem retry_non429_http_error_immediate_witness :
    request_with_retry (fun _ => .httpErr 404) 3 =
      ⟨.error (.http 404), 1, []⟩ :=
  retry_non429_http_error_immediate (fun _ => .httpErr 404) 3 404 rfl
    (by decide) (by decide)

/-- C10: with `retries = 0` (or any value below 1) the attempt range
`range(1, retries + 1)` is empty, so no HTTP attempt is made at all and the
function returns the empty list instead of raising. -/
theorem retry_no_attempt_when_retries_below_one (transport : Nat → Attempt)
    (retries : Int) (h : retries < 1) :
    request_with_retry transport retries = ⟨.ok [], 0, []⟩ := by
  have h0 : retries.toNat = 0 := by omega
  simp [request_with_retry, h0, List.range', retryGo]

/-- Witness for C10 at `retries = 0` and an always-failing transport. -/
theorem retry_no_attempt_when_retries_below_one_witness :
    request_with_retry (fun _ => .connErr) 0 = ⟨.ok [], 0, []⟩ :=
  retry_no_attempt_when_retries_below_one (fun _ => .connErr) 0 (by decide)

end OhlcvExporter
